import Mathlib

/-!
Verification of the benchmark alignment and caching engine of `benchmarks.py`.

The Python module maintains a persistent JSON cache of monthly benchmark
returns (`{symbol: {"YYYY-MM": float}}`), an `_aligned` section of
sub-month ("boundary") returns (`{symbol: {"YYYY-MM": {start, end, return,
as_of}}}`) and a `_meta` section with a last-updated timestamp.  The
market-data provider (yfinance) is modelled as an oracle parameter: a
function from a request to either an exception (`Except.error`) or the
returned price history.  Calendar months are absolute month indices
(`year * 12 + (month - 1)`), dates are `(year, month, day)` records, and
`"YYYY-MM"` / ISO-date string keys are modelled by the months / dates
themselves (the string rendering is injective).  Returns and closing
prices are rationals.  Python dictionaries are association lists with
insertion-order update (`setKey`).  Each cache-mutating operation returns
the cache document it persists together with instrumentation recording
which provider fetches were performed.
-/

/-- An absolute calendar-month index: `year * 12 + (month - 1)`. -/
abbrev Month := Nat

/-- A calendar date, `y`ear / `m`onth (1..12) / `d`ay. -/
structure Date where
  y : Nat
  m : Nat
  d : Nat
deriving DecidableEq, Repr

/-- The calendar month containing a date, as an absolute index
(`pd.Period(date, freq="M")`). -/
def Date.monthIdx (dt : Date) : Month := dt.y * 12 + (dt.m - 1)

/-- An injective numeric key for dates (days per month bounded by 32),
giving the chronological order on dates. -/
def Date.key (dt : Date) : Nat := dt.monthIdx * 32 + dt.d

/-- Gregorian leap-year rule. -/
def isLeapYear (y : Nat) : Bool := (y % 4 == 0 && y % 100 != 0) || y % 400 == 0

/-- Number of days of a calendar month. -/
def daysInMonth (y m : Nat) : Nat :=
  if m = 2 then (if isLeapYear y then 29 else 28)
  else if m = 4 ∨ m = 6 ∨ m = 9 ∨ m = 11 then 30
  else 31

/-- First calendar day of a month (`date(year, month, 1)`). -/
def firstOfMonthDate (p : Month) : Date := ⟨p / 12, p % 12 + 1, 1⟩

/-- Last calendar day of a month (`period.to_timestamp("M") + MonthEnd(0)`). -/
def endOfMonthDate (p : Month) : Date := ⟨p / 12, p % 12 + 1, daysInMonth (p / 12) (p % 12 + 1)⟩

/-- `last_complete_month`: the calendar month immediately preceding the month
containing `today` (`today.replace(day=1) - timedelta(days=1)`, taken as a
monthly period).  This is the watermark of the full-month cache. -/
def lastCompleteMonth (today : Date) : Month := today.monthIdx - 1

/-- First-key lookup in an association list (Python `dict.get`). -/
def getKey? {α β : Type} [DecidableEq α] : List (α × β) → α → Option β
  | [], _ => none
  | (k, v) :: rest, k' => if k = k' then some v else getKey? rest k'

/-- Insertion-order-preserving update (Python `dict[k] = v`): replaces the
binding of `k` when present, appends it otherwise. -/
def setKey {α β : Type} [DecidableEq α] : List (α × β) → α → β → List (α × β)
  | [], k, v => [(k, v)]
  | (k0, v0) :: rest, k, v =>
    if k0 = k then (k, v) :: rest else (k0, v0) :: setKey rest k v

/-- A daily price history as returned by the provider: dated closes plus an
optional timezone tag on the index.  The `Date` components are the wall-clock
(local) timestamps, which is what `tz_localize(None)` preserves. -/
structure DSeries where
  data : List (Date × Rat)
  tz : Option Int
deriving DecidableEq, Repr

/-- `index.tz_localize(None)`: drop the timezone tag, keeping wall times. -/
def stripTz (s : DSeries) : DSeries := { data := s.data, tz := none }

/-- `series[series.index >= start]` against a timezone-naive bound: comparing
a tz-aware index with a naive timestamp is a type error in pandas, modelled
as `none`; on a naive index it filters. -/
def seriesFilterGE (s : DSeries) (start : Date) : Option (List (Date × Rat)) :=
  match s.tz with
  | some _ => none
  | none => some (s.data.filter (fun pr => decide (start.key ≤ pr.1.key)))

/-- `series[series.index <= endD]` against a timezone-naive bound; `none` on
a tz-aware index (comparison mismatch), a filter on a naive one. -/
def seriesFilterLE (s : DSeries) (endD : Date) : Option (List (Date × Rat)) :=
  match s.tz with
  | some _ => none
  | none => some (s.data.filter (fun pr => decide (pr.1.key ≤ endD.key)))

/-- `_first_trading_close`: normalize a tz-aware index to naive, then return
the close of the first row dated on/after `start`, if any. -/
def firstTradingClose (series : DSeries) (start : Date) : Option Rat :=
  let series := if series.tz.isSome then stripTz series else series
  match seriesFilterGE series start with
  | none => none
  | some s => s.head?.map Prod.snd

/-- `_last_trading_close`: normalize a tz-aware index to naive, then return
the close of the last row dated on/before `endD`, if any. -/
def lastTradingClose (series : DSeries) (endD : Date) : Option Rat :=
  let series := if series.tz.isSome then stripTz series else series
  match seriesFilterLE series endD with
  | none => none
  | some s => s.getLast?.map Prod.snd

/-- Daily-granularity provider oracle: `yf.Ticker(symbol).history(start, end,
interval="1d")`, which may raise (`Except.error`) or return a history. -/
abbrev DOracle := String → Date → Date → Except Unit DSeries

/-- `fetch_partial_return`: adjusted-close return between two dates inclusive,
`last / first - 1` over daily data; `none` on inverted range, provider
exception, empty history, missing endpoint or zero first close. -/
def fetchPartialReturn (histD : DOracle) (symbol : String) (startDate endDate : Date) :
    Option Rat :=
  if endDate.key < startDate.key then none
  else
    match histD symbol startDate endDate with
    | Except.error _ => none
    | Except.ok hist =>
      if hist.data.isEmpty then none
      else
        match firstTradingClose hist startDate, lastTradingClose hist endDate with
        | some first, some last => if first = 0 then none else some (last / first - 1)
        | some _, none => none
        | none, _ => none

/-- Monthly-granularity provider oracle: `yf.Ticker(symbol).history(...,
interval="1mo")` with the rows already keyed by their calendar month. -/
abbrev MOracle := String → Month → Month → Except Unit (List (Month × Rat))

/-- `closes.pct_change().dropna()` continued after the first close. -/
def pctChangeAux (prev : Rat) : List (Month × Rat) → List (Month × Rat)
  | [] => []
  | (p, c) :: rest => (p, c / prev - 1) :: pctChangeAux c rest

/-- `closes.pct_change().dropna()`: month-over-month fractional changes,
dropping the first (undefined) row. -/
def pctChange : List (Month × Rat) → List (Month × Rat)
  | [] => []
  | (_, c0) :: rest => pctChangeAux c0 rest

/-- `fetch_monthly_returns`: empty on a provider exception or empty history,
otherwise percentage changes of the monthly closes restricted to the
requested period window. -/
def fetchMonthlyReturns (histM : MOracle) (symbol : String) (startP endP : Month) :
    List (Month × Rat) :=
  match histM symbol startP endP with
  | Except.error _ => []
  | Except.ok hist =>
    if hist.isEmpty then []
    else (pctChange hist).filter (fun pv => decide (startP ≤ pv.1) && decide (pv.1 ≤ endP))

/-- One record of the `_aligned` section: `{start, end, return, as_of}`. -/
structure AlignedEntry where
  start : Date
  endD : Date
  ret : Rat
  asOf : Date
deriving DecidableEq, Repr

/-- Full-month section for one symbol: `{"YYYY-MM": float}`. -/
abbrev SymbolCache := List (Month × Rat)

/-- Aligned section for one symbol: `{"YYYY-MM": {start, end, return, as_of}}`. -/
abbrev AlignedCache := List (Month × AlignedEntry)

/-- The persisted cache document: per-symbol full-month maps, the `_aligned`
section and the `_meta.last_updated` timestamp. -/
structure Cache where
  monthly : List (String × SymbolCache)
  aligned : List (String × AlignedCache)
  metaLastUpdated : Option String
deriving DecidableEq, Repr

/-- The write-back loop of `ensure_benchmark_cache`: store every fetched
month at or below the watermark `lcm` into the symbol's map, in order. -/
def writeMonths (lcm : Month) (symCache : SymbolCache) (series : List (Month × Rat)) :
    SymbolCache :=
  series.foldl (fun sc pv => if pv.1 ≤ lcm then setKey sc pv.1 pv.2 else sc) symCache

/-- The per-symbol body of `ensure_benchmark_cache`: compute the needed months
missing from the symbol's map; if none, leave it unchanged without fetching;
otherwise fetch one contiguous range spanning `min(missing)..max(missing)` and
write every returned month at or below the watermark `lcm`.  The boolean
records whether a provider fetch was performed. -/
def symRefresh (fetchM : String → Month → Month → List (Month × Rat)) (lcm : Month)
    (needed : List Month) (symbol : String) (symCache : SymbolCache) : SymbolCache × Bool :=
  let missing := needed.filter (fun p => (getKey? symCache p).isNone)
  match missing with
  | [] => (symCache, false)
  | p0 :: rest =>
    let startP := rest.foldl min p0
    let endP := rest.foldl max p0
    (writeMonths lcm symCache (fetchM symbol startP endP), true)

/-- One iteration of the symbol loop of `ensure_benchmark_cache`, carrying the
per-symbol maps and the number of provider fetches performed so far. -/
def refreshStep (fetchM : String → Month → Month → List (Month × Rat)) (lcm : Month)
    (needed : List Month) (acc : List (String × SymbolCache) × Nat) (symbol : String) :
    List (String × SymbolCache) × Nat :=
  let symCache := (getKey? acc.1 symbol).getD []
  let r := symRefresh fetchM lcm needed symbol symCache
  (setKey acc.1 symbol r.1, acc.2 + (if r.2 then 1 else 0))

/-- `ensure_benchmark_cache` over an explicit initial cache document, with the
result of `fetch_monthly_returns` supplied as the oracle `fetchM`.  Returns
the resulting (persisted) document, the number of provider fetches performed,
and whether the document was saved at all (months all beyond the watermark or
no requested month: return the cache unchanged without saving). -/
def ensureBenchmarkCache (fetchM : String → Month → Month → List (Month × Rat))
    (today : Date) (symbols : List String) (neededMonths : List Month) (cache : Cache) :
    Cache × Nat × Bool :=
  let lcm := lastCompleteMonth today
  let needed := neededMonths.filter (fun p => decide (p ≤ lcm))
  if needed.isEmpty then (cache, 0, false)
  else
    let res := symbols.foldl (refreshStep fetchM lcm needed) (cache.monthly, 0)
    ({ cache with monthly := res.1 }, res.2, true)

/-- The inception-partial refresh of the `ensure_aligned_partials` loop body:
when the inception month has no record yet, fetch the daily return over
`[inception_date, end of inception month]` and store it if it came back.
The boolean records whether the daily fetch was performed. -/
def incStep (histD : DOracle) (symbol : String) (inceptionDate : Date)
    (symAligned : AlignedCache) : AlignedCache × Bool :=
  if (getKey? symAligned inceptionDate.monthIdx).isNone then
    match fetchPartialReturn histD symbol inceptionDate
        (endOfMonthDate inceptionDate.monthIdx) with
    | some r => (setKey symAligned inceptionDate.monthIdx
        ⟨inceptionDate, endOfMonthDate inceptionDate.monthIdx, r,
          endOfMonthDate inceptionDate.monthIdx⟩, true)
    | none => (symAligned, true)
  else (symAligned, false)

/-- The current-partial refresh of the `ensure_aligned_partials` loop body:
when the current month has no record, or its stored `end` differs from
`current_end` (staleness), fetch the daily return over
`[first of current month, current_end]` and store it if it came back.
The boolean records whether the daily fetch was performed. -/
def curStep (histD : DOracle) (symbol : String) (currentEnd : Date)
    (symAligned : AlignedCache) : AlignedCache × Bool :=
  if (match getKey? symAligned currentEnd.monthIdx with
      | none => true
      | some e => decide (e.endD ≠ currentEnd)) then
    match fetchPartialReturn histD symbol (firstOfMonthDate currentEnd.monthIdx) currentEnd with
    | some r => (setKey symAligned currentEnd.monthIdx
        ⟨firstOfMonthDate currentEnd.monthIdx, currentEnd, r, currentEnd⟩, true)
    | none => (symAligned, true)
  else (symAligned, false)

/-- The per-symbol body of the `ensure_aligned_partials` loop: the inception
refresh followed by the current refresh on its result.  The two booleans
record whether the inception and the current daily fetches were performed. -/
def alignSymStep (histD : DOracle) (symbol : String) (inceptionDate currentEnd : Date)
    (symAligned : AlignedCache) : AlignedCache × Bool × Bool :=
  let s1 := incStep histD symbol inceptionDate symAligned
  let s2 := curStep histD symbol currentEnd s1.1
  (s2.1, s1.2, s2.2)

/-- One iteration of the symbol loop of `ensure_aligned_partials`, carrying
the per-symbol aligned maps and the log of daily fetches performed so far. -/
def alignFoldStep (histD : DOracle) (inceptionDate currentEnd : Date)
    (acc : List (String × AlignedCache) × List (String × Bool × Bool)) (symbol : String) :
    List (String × AlignedCache) × List (String × Bool × Bool) :=
  let symAligned := (getKey? acc.1 symbol).getD []
  let r := alignSymStep histD symbol inceptionDate currentEnd symAligned
  (setKey acc.1 symbol r.1, acc.2 ++ [(symbol, r.2.1, r.2.2)])

/-- `ensure_aligned_partials` over an explicit initial cache document.
Mutates only the `_aligned` section and unconditionally stamps
`_meta.last_updated` with `now` and saves the document.  The log lists, per
processed symbol, which of the two daily fetches were performed; the final
boolean records the (unconditional) save. -/
def ensureAlignedEntries (histD : DOracle) (symbols : List String)
    (inceptionDate currentEnd : Date) (now : String) (cache : Cache) :
    Cache × List (String × Bool × Bool) × Bool :=
  let res := symbols.foldl (alignFoldStep histD inceptionDate currentEnd) (cache.aligned, [])
  ({ cache with aligned := res.1, metaLastUpdated := some now }, res.2, true)

/-- The full-month map a document holds for a symbol (`cache.get(symbol, {})`). -/
def monthlyOf (c : Cache) (symbol : String) : SymbolCache := (getKey? c.monthly symbol).getD []

/-- The aligned map a document holds for a symbol
(`cache.get("_aligned", {}).get(symbol, {})`). -/
def alignedOf (c : Cache) (symbol : String) : AlignedCache := (getKey? c.aligned symbol).getD []

/-- Month resolution of `get_aligned_benchmark_series`: the aligned record's
return when present, else the full-month value when present, else nothing. -/
def seriesVal (alignedMap : AlignedCache) (monthlyMap : SymbolCache) (p : Month) : Option Rat :=
  match getKey? alignedMap p with
  | some e => some e.ret
  | none => getKey? monthlyMap p

/-- Comparison of series rows by their month key (`sort_index`). -/
def keyLe (a b : Month × Rat) : Prop := a.1 ≤ b.1

instance : DecidableRel keyLe := fun a b => inferInstanceAs (Decidable (a.1 ≤ b.1))

instance : IsTotal (Month × Rat) keyLe := ⟨fun a b => Nat.le_total a.1 b.1⟩

instance : IsTrans (Month × Rat) keyLe := ⟨fun _ _ _ h1 h2 => Nat.le_trans h1 h2⟩

/-- The output loop of `get_aligned_benchmark_series` over a refreshed
document: resolve each requested month (aligned value first, else full-month
value, else skip) and sort the rows by month. -/
def buildSeries (c : Cache) (symbol : String) (months : List Month) : List (Month × Rat) :=
  let monthlyMap := monthlyOf c symbol
  let alignedMap := alignedOf c symbol
  let out := months.filterMap (fun p => (seriesVal alignedMap monthlyMap p).map (fun v => (p, v)))
  List.insertionSort keyLe out

/-- `get_aligned_benchmark_series`: refresh the full-month cache for the
requested months, refresh the aligned boundary records, then merge.  Returns
the series and the persisted document. -/
def getAlignedBenchmarkSeries (fetchM : String → Month → Month → List (Month × Rat))
    (histD : DOracle) (today : Date) (now : String) (symbol : String) (months : List Month)
    (inceptionDate currentEnd : Date) (cache : Cache) : List (Month × Rat) × Cache :=
  let c1 := (ensureBenchmarkCache fetchM today [symbol] months cache).1
  let c2 := (ensureAlignedEntries histD [symbol] inceptionDate currentEnd now c1).1
  (buildSeries c2 symbol months, c2)

/-- The spec's `align(symbols, months, inception_date, current_end_date)`:
`get_aligned_benchmark_series` generalised to a symbol list, i.e. the
composition of `ensure_benchmark_cache` and `ensure_aligned_partials`
followed by the per-symbol merge.  Returns the per-symbol series, the
resulting document, the total number of provider fetches performed, and
whether the document was (re)written to disk. -/
def align (fetchM : String → Month → Month → List (Month × Rat)) (histD : DOracle)
    (today : Date) (now : String) (symbols : List String) (months : List Month)
    (inceptionDate currentEnd : Date) (cache : Cache) :
    List (String × List (Month × Rat)) × Cache × Nat × Bool :=
  let r1 := ensureBenchmarkCache fetchM today symbols months cache
  let r2 := ensureAlignedEntries histD symbols inceptionDate currentEnd now r1.1
  let fetches := r1.2.1 + r2.2.1.foldl
    (fun n f => n + (if f.2.1 then 1 else 0) + (if f.2.2 then 1 else 0)) 0
  (symbols.map (fun s => (s, buildSeries r2.1 s months)), r2.1, fetches, r1.2.2 || r2.2.2)

theorem getKey?_setKey {α β : Type} [DecidableEq α] (l : List (α × β)) (k k' : α) (v : β) :
    getKey? (setKey l k v) k' = if k = k' then some v else getKey? l k' := by
  induction l with
  | nil => rfl
  | cons hd tl ih =>
    obtain ⟨k0, v0⟩ := hd
    by_cases h0 : k0 = k
    · subst h0
      by_cases h1 : k0 = k' <;> simp [setKey, getKey?, h1]
    · by_cases h1 : k0 = k'
      · subst h1
        have hkk : ¬k = k0 := fun h => h0 h.symm
        simp [setKey, h0, getKey?, hkk]
      · simp [setKey, h0, getKey?, h1, ih]

theorem mem_map_fst_setKey {α β : Type} [DecidableEq α] (l : List (α × β)) (k a : α) (v : β) :
    a ∈ (setKey l k v).map Prod.fst ↔ a ∈ l.map Prod.fst ∨ a = k := by
  induction l with
  | nil => simp [setKey]
  | cons hd tl ih =>
    obtain ⟨k0, v0⟩ := hd
    by_cases h0 : k0 = k
    · subst h0
      simp [setKey]
      tauto
    · simp [setKey, h0, ih]
      tauto

theorem nodup_map_fst_setKey {α β : Type} [DecidableEq α] (l : List (α × β)) (k : α) (v : β)
    (h : (l.map Prod.fst).Nodup) : ((setKey l k v).map Prod.fst).Nodup := by
  induction l with
  | nil => simp [setKey]
  | cons hd tl ih =>
    obtain ⟨k0, v0⟩ := hd
    simp only [List.map_cons, List.nodup_cons] at h
    by_cases h0 : k0 = k
    · subst h0
      have hs : setKey ((k0, v0) :: tl) k0 v = (k0, v) :: tl := by simp [setKey]
      rw [hs]
      simpa using h
    · simp only [setKey, if_neg h0, List.map_cons, List.nodup_cons]
      refine ⟨?_, ih h.2⟩
      rw [mem_map_fst_setKey]
      rintro (hmem | hEq)
      · exact h.1 hmem
      · exact h0 hEq

/-- C9: timezone round-trip — `_first_trading_close` and `_last_trading_close`
return identical first/last trading-day selections on a timezone-aware daily
price series and on its equivalent timezone-naive counterpart, for any naive
boundary timestamps. -/
theorem claim_C9_timezone_roundtrip (data : List (Date × Rat)) (z : Int) (start endD : Date) :
    firstTradingClose ⟨data, some z⟩ start = firstTradingClose ⟨data, none⟩ start ∧
    lastTradingClose ⟨data, some z⟩ endD = lastTradingClose ⟨data, none⟩ endD :=
  ⟨rfl, rfl⟩

/-- C8: the MarketDataSource boundary never raises — `fetch_monthly_returns`
returns an empty series and `fetch_partial_return` returns `none` on any
provider failure (exception), inverted range, or absence of data. -/
theorem claim_C8_provider_failures (histM : MOracle) (histD : DOracle) (symbol : String)
    (a b : Month) (s e : Date) (tz : Option Int) :
    (histM symbol a b = Except.error () → fetchMonthlyReturns histM symbol a b = []) ∧
    (histM symbol a b = Except.ok [] → fetchMonthlyReturns histM symbol a b = []) ∧
    (histD symbol s e = Except.error () → fetchPartialReturn histD symbol s e = none) ∧
    (e.key < s.key → fetchPartialReturn histD symbol s e = none) ∧
    (histD symbol s e = Except.ok ⟨[], tz⟩ → fetchPartialReturn histD symbol s e = none) := by
  refine ⟨fun h => ?_, fun h => ?_, fun h => ?_, fun h => ?_, fun h => ?_⟩
  · simp [fetchMonthlyReturns, h]
  · simp [fetchMonthlyReturns, h]
  · simp [fetchPartialReturn, h]
  · simp [fetchPartialReturn, h]
  · simp [fetchPartialReturn, h]

theorem claim_C8_provider_failures_witness :
    fetchMonthlyReturns (fun _ _ _ => Except.error ()) "SPY" 0 5 = [] ∧
    fetchMonthlyReturns (fun _ _ _ => Except.ok []) "SPY" 0 5 = [] ∧
    fetchPartialReturn (fun _ _ _ => Except.error ()) "SPY" ⟨2024, 1, 1⟩ ⟨2024, 1, 5⟩ = none ∧
    fetchPartialReturn (fun _ _ _ => Except.error ()) "SPY" ⟨2024, 1, 5⟩ ⟨2024, 1, 1⟩ = none ∧
    fetchPartialReturn (fun _ _ _ => Except.ok ⟨[], none⟩) "SPY" ⟨2024, 1, 1⟩ ⟨2024, 1, 5⟩
      = none :=
  ⟨(claim_C8_provider_failures (fun _ _ _ => Except.error ()) (fun _ _ _ => Except.error ())
      "SPY" 0 5 ⟨2024, 1, 1⟩ ⟨2024, 1, 5⟩ none).1 rfl,
   (claim_C8_provider_failures (fun _ _ _ => Except.ok []) (fun _ _ _ => Except.error ())
      "SPY" 0 5 ⟨2024, 1, 1⟩ ⟨2024, 1, 5⟩ none).2.1 rfl,
   (claim_C8_provider_failures (fun _ _ _ => Except.error ()) (fun _ _ _ => Except.error ())
      "SPY" 0 5 ⟨2024, 1, 1⟩ ⟨2024, 1, 5⟩ none).2.2.1 rfl,
   (claim_C8_provider_failures (fun _ _ _ => Except.error ()) (fun _ _ _ => Except.error ())
      "SPY" 0 5 ⟨2024, 1, 5⟩ ⟨2024, 1, 1⟩ none).2.2.2.1 (by decide),
   (claim_C8_provider_failures (fun _ _ _ => Except.error ()) (fun _ _ _ => Except.ok ⟨[], none⟩)
      "SPY" 0 5 ⟨2024, 1, 1⟩ ⟨2024, 1, 5⟩ none).2.2.2.2 rfl⟩

/-- C3 (amended): `align` on an empty symbol list and empty month list returns
an empty result, performs no provider fetches, and leaves the full-month and
aligned sections untouched; however the document is still rewritten, with
`_meta.last_updated` stamped to the current time. -/
theorem claim_C3_empty_input (fetchM : String → Month → Month → List (Month × Rat))
    (histD : DOracle) (today : Date) (now : String) (inceptionDate currentEnd : Date)
    (cache : Cache) :
    (align fetchM histD today now [] [] inceptionDate currentEnd cache).1 = [] ∧
    (align fetchM histD today now [] [] inceptionDate currentEnd cache).2.2.1 = 0 ∧
    (align fetchM histD today now [] [] inceptionDate currentEnd cache).2.1.monthly
      = cache.monthly ∧
    (align fetchM histD today now [] [] inceptionDate currentEnd cache).2.1.aligned
      = cache.aligned ∧
    (align fetchM histD today now [] [] inceptionDate currentEnd cache).2.1.metaLastUpdated
      = some now :=
  ⟨rfl, rfl, rfl, rfl, rfl⟩

/-- C3 is false as stated: on empty inputs the persisted cache document is not
identical before and after the call — `_meta.last_updated` is rewritten
(and the document re-saved) even though nothing else changed. -/
theorem claim_C3_counterexample :
    (align (fun _ _ _ => []) (fun _ _ _ => Except.error ()) ⟨2024, 4, 12⟩
        "2024-04-12T12:00:00Z" [] [] ⟨2024, 2, 10⟩ ⟨2024, 4, 12⟩ ⟨[], [], none⟩).2.1
      ≠ (⟨[], [], none⟩ : Cache) := by
  decide

theorem writeMonths_cons (lcm : Month) (sc : SymbolCache) (pv : Month × Rat)
    (rest : List (Month × Rat)) :
    writeMonths lcm sc (pv :: rest)
      = writeMonths lcm (if pv.1 ≤ lcm then setKey sc pv.1 pv.2 else sc) rest := rfl

theorem writeMonths_changed (lcm p : Month) :
    ∀ (series : List (Month × Rat)) (sc : SymbolCache),
      getKey? (writeMonths lcm sc series) p ≠ getKey? sc p → p ≤ lcm := by
  intro series
  induction series with
  | nil => intro sc h; exact absurd rfl h
  | cons pv rest ih =>
    intro sc h
    rw [writeMonths_cons] at h
    by_cases h2 : getKey? (writeMonths lcm (if pv.1 ≤ lcm then setKey sc pv.1 pv.2 else sc) rest) p
        = getKey? (if pv.1 ≤ lcm then setKey sc pv.1 pv.2 else sc : SymbolCache) p
    · rw [h2] at h
      by_cases hle : pv.1 ≤ lcm
      · rw [if_pos hle, getKey?_setKey] at h
        by_cases hp : pv.1 = p
        · exact hp ▸ hle
        · rw [if_neg hp] at h; exact absurd rfl h
      · rw [if_neg hle] at h; exact absurd rfl h
    · exact ih _ h2

theorem writeMonths_isSome_mono (lcm p : Month) :
    ∀ (series : List (Month × Rat)) (sc : SymbolCache),
      (getKey? sc p).isSome → (getKey? (writeMonths lcm sc series) p).isSome := by
  intro series
  induction series with
  | nil => intro sc h; exact h
  | cons pv rest ih =>
    intro sc h
    rw [writeMonths_cons]
    apply ih
    by_cases hle : pv.1 ≤ lcm
    · rw [if_pos hle, getKey?_setKey]
      by_cases hp : pv.1 = p
      · simp [hp]
      · rw [if_neg hp]; exact h
    · rw [if_neg hle]; exact h

theorem writeMonths_mem_isSome (lcm p : Month) (v : Rat) :
    ∀ (series : List (Month × Rat)) (sc : SymbolCache), (p, v) ∈ series → p ≤ lcm →
      (getKey? (writeMonths lcm sc series) p).isSome := by
  intro series
  induction series with
  | nil => intro sc h _; cases h
  | cons pv rest ih =>
    intro sc hmem hle
    rw [writeMonths_cons]
    cases hmem with
    | head => apply writeMonths_isSome_mono; simp [hle, getKey?_setKey]
    | tail b hmem2 => exact ih _ hmem2 hle

theorem foldl_min_le : ∀ (rest : List Month) (p0 p : Month), p ∈ p0 :: rest →
    rest.foldl min p0 ≤ p := by
  intro rest
  induction rest with
  | nil =>
    intro p0 p h
    rcases List.mem_cons.1 h with rfl | h2
    · exact le_refl p
    · cases h2
  | cons q rest2 ih =>
    intro p0 p h
    rw [List.foldl_cons]
    rcases List.mem_cons.1 h with rfl | h2
    · exact le_trans (ih _ _ (List.mem_cons_self _ _)) (min_le_left _ _)
    · rcases List.mem_cons.1 h2 with rfl | h3
      · exact le_trans (ih _ _ (List.mem_cons_self _ _)) (min_le_right _ _)
      · exact ih _ _ (List.mem_cons.2 (Or.inr h3))

theorem le_foldl_max : ∀ (rest : List Month) (p0 p : Month), p ∈ p0 :: rest →
    p ≤ rest.foldl max p0 := by
  intro rest
  induction rest with
  | nil =>
    intro p0 p h
    rcases List.mem_cons.1 h with rfl | h2
    · exact le_refl p
    · cases h2
  | cons q rest2 ih =>
    intro p0 p h
    rw [List.foldl_cons]
    rcases List.mem_cons.1 h with rfl | h2
    · exact le_trans (le_max_left _ _) (ih _ _ (List.mem_cons_self _ _))
    · rcases List.mem_cons.1 h2 with rfl | h3
      · exact le_trans (le_max_right _ _) (ih _ _ (List.mem_cons_self _ _))
      · exact ih _ _ (List.mem_cons.2 (Or.inr h3))

theorem symRefresh_changed (fetchM : String → Month → Month → List (Month × Rat))
    (lcm : Month) (needed : List Month) (symbol : String) (sc : SymbolCache) (p : Month)
    (h : getKey? (symRefresh fetchM lcm needed symbol sc).1 p ≠ getKey? sc p) : p ≤ lcm := by
  unfold symRefresh at h
  cases hm : needed.filter (fun q => (getKey? sc q).isNone) with
  | nil => rw [hm] at h; exact absurd rfl h
  | cons p0 rest => rw [hm] at h; exact writeMonths_changed _ _ _ _ h

theorem refreshFold_changed (fetchM : String → Month → Month → List (Month × Rat))
    (lcm : Month) (needed : List Month) (p : Month) :
    ∀ (symbols : List String) (acc : List (String × SymbolCache) × Nat) (symbol : String),
      getKey? ((getKey? (symbols.foldl (refreshStep fetchM lcm needed) acc).1 symbol).getD []) p
        ≠ getKey? ((getKey? acc.1 symbol).getD []) p → p ≤ lcm := by
  intro symbols
  induction symbols with
  | nil => intro acc symbol h; exact absurd rfl h
  | cons s rest ih =>
    intro acc symbol h
    rw [List.foldl_cons] at h
    by_cases h2 :
        getKey? ((getKey? (rest.foldl (refreshStep fetchM lcm needed)
            (refreshStep fetchM lcm needed acc s)).1 symbol).getD []) p
          = getKey? ((getKey? (refreshStep fetchM lcm needed acc s).1 symbol).getD []) p
    · rw [h2] at h
      rw [show (refreshStep fetchM lcm needed acc s).1
          = setKey acc.1 s (symRefresh fetchM lcm needed s ((getKey? acc.1 s).getD [])).1
          from rfl, getKey?_setKey] at h
      by_cases hs : s = symbol
      · rw [if_pos hs] at h
        subst hs
        exact symRefresh_changed _ _ _ _ _ _ h
      · rw [if_neg hs] at h; exact absurd rfl h
    · exact ih _ _ h2

/-- C1: watermark invariant — for every oracle, set of symbols, requested
months and initial cache, any binding of a symbol's full-month map that
`ensure_benchmark_cache` changes (writes or overwrites) is for a month at or
below the last complete month. -/
theorem claim_C1_watermark (fetchM : String → Month → Month → List (Month × Rat))
    (today : Date) (symbols : List String) (months : List Month) (cache : Cache)
    (symbol : String) (p : Month)
    (h : getKey? (monthlyOf (ensureBenchmarkCache fetchM today symbols months cache).1 symbol) p
        ≠ getKey? (monthlyOf cache symbol) p) :
    p ≤ lastCompleteMonth today := by
  by_cases hne : (months.filter (fun q => decide (q ≤ lastCompleteMonth today))).isEmpty
  · rw [show ensureBenchmarkCache fetchM today symbols months cache = (cache, 0, false) from by
      simp [ensureBenchmarkCache, hne]] at h
    exact absurd rfl h
  · have hm : (ensureBenchmarkCache fetchM today symbols months cache).1.monthly
        = (symbols.foldl (refreshStep fetchM (lastCompleteMonth today)
            (months.filter (fun q => decide (q ≤ lastCompleteMonth today))))
            (cache.monthly, 0)).1 := by
      simp [ensureBenchmarkCache, hne]
    rw [monthlyOf, hm] at h
    exact refreshFold_changed _ _ _ _ _ _ _ h

theorem claim_C1_watermark_witness : (24290 : Month) ≤ lastCompleteMonth ⟨2024, 4, 12⟩ :=
  claim_C1_watermark (fun _ _ _ => [(24290, (1 : Rat) / 2)]) ⟨2024, 4, 12⟩ ["SPY"] [24290]
    ⟨[], [], none⟩ "SPY" 24290 (by decide)

theorem symRefresh_complete (fetchM : String → Month → Month → List (Month × Rat))
    (lcm : Month) (needed : List Month) (symbol : String) (sc : SymbolCache)
    (hc : ∀ a b p, a ≤ p → p ≤ b → ∃ v, (p, v) ∈ fetchM symbol a b)
    (hNeed : ∀ p ∈ needed, p ≤ lcm) :
    ∀ p ∈ needed, (getKey? (symRefresh fetchM lcm needed symbol sc).1 p).isSome := by
  intro p hp
  unfold symRefresh
  cases hm : needed.filter (fun q => (getKey? sc q).isNone) with
  | nil =>
    have h2 := (List.filter_eq_nil_iff.1 hm) p hp
    rcases h3 : getKey? sc p with _ | v
    · rw [h3] at h2; simp at h2
    · rfl
  | cons p0 rest =>
    by_cases hsc : (getKey? sc p).isSome
    · exact writeMonths_isSome_mono _ _ _ _ hsc
    · have hpn : (getKey? sc p).isNone = true := by
        rcases h3 : getKey? sc p with _ | v
        · rfl
        · rw [h3] at hsc; simp at hsc
      have hmem : p ∈ p0 :: rest := by
        rw [← hm]
        exact List.mem_filter.2 ⟨hp, hpn⟩
      obtain ⟨v, hv⟩ := hc (rest.foldl min p0) (rest.foldl max p0) p
        (foldl_min_le rest p0 p hmem) (le_foldl_max rest p0 p hmem)
      exact writeMonths_mem_isSome _ _ v _ _ hv (hNeed p hp)

theorem refreshFold_complete_mono (fetchM : String → Month → Month → List (Month × Rat))
    (lcm : Month) (needed : List Month)
    (hc : ∀ symbol a b q, a ≤ q → q ≤ b → ∃ v, (q, v) ∈ fetchM symbol a b)
    (hNeed : ∀ q ∈ needed, q ≤ lcm) :
    ∀ (symbols : List String) (acc : List (String × SymbolCache) × Nat) (symbol : String),
      (∀ p ∈ needed, (getKey? ((getKey? acc.1 symbol).getD []) p).isSome) →
      (∀ p ∈ needed,
        (getKey? ((getKey? (symbols.foldl (refreshStep fetchM lcm needed) acc).1 symbol).getD [])
          p).isSome) := by
  intro symbols
  induction symbols with
  | nil => intro acc symbol h; exact h
  | cons s rest ih =>
    intro acc symbol h
    rw [List.foldl_cons]
    apply ih
    intro p hp
    rw [show (refreshStep fetchM lcm needed acc s).1
        = setKey acc.1 s (symRefresh fetchM lcm needed s ((getKey? acc.1 s).getD [])).1
        from rfl, getKey?_setKey]
    by_cases hs : s = symbol
    · rw [if_pos hs]
      exact symRefresh_complete fetchM lcm needed s _ (hc s) hNeed p hp
    · rw [if_neg hs]; exact h p hp

theorem refreshFold_complete (fetchM : String → Month → Month → List (Month × Rat))
    (lcm : Month) (needed : List Month)
    (hc : ∀ symbol a b q, a ≤ q → q ≤ b → ∃ v, (q, v) ∈ fetchM symbol a b)
    (hNeed : ∀ q ∈ needed, q ≤ lcm) :
    ∀ (symbols : List String) (acc : List (String × SymbolCache) × Nat) (symbol : String),
      symbol ∈ symbols →
      ∀ p ∈ needed,
        (getKey? ((getKey? (symbols.foldl (refreshStep fetchM lcm needed) acc).1 symbol).getD [])
          p).isSome := by
  intro symbols
  induction symbols with
  | nil => intro acc symbol h; cases h
  | cons s rest ih =>
    intro acc symbol hmem
    rw [List.foldl_cons]
    by_cases hr : symbol ∈ rest
    · exact ih _ _ hr
    · have hs : symbol = s := by
        rcases List.mem_cons.1 hmem with h2 | h2
        · exact h2
        · exact absurd h2 hr
      subst hs
      apply refreshFold_complete_mono fetchM lcm needed hc hNeed rest
      intro p hp
      rw [show (refreshStep fetchM lcm needed acc symbol).1
          = setKey acc.1 symbol
              (symRefresh fetchM lcm needed symbol ((getKey? acc.1 symbol).getD [])).1
          from rfl, getKey?_setKey, if_pos rfl]
      exact symRefresh_complete fetchM lcm needed symbol _ (hc symbol) hNeed p hp

theorem symRefresh_noFetch (fetchM : String → Month → Month → List (Month × Rat))
    (lcm : Month) (needed : List Month) (symbol : String) (sc : SymbolCache)
    (h : ∀ p ∈ needed, (getKey? sc p).isSome) :
    symRefresh fetchM lcm needed symbol sc = (sc, false) := by
  unfold symRefresh
  have hf : needed.filter (fun q => (getKey? sc q).isNone) = [] := by
    apply List.filter_eq_nil_iff.2
    intro a ha
    have h2 := h a ha
    rcases h3 : getKey? sc a with _ | v
    · rw [h3] at h2; simp at h2
    · simp [h3]
  rw [hf]

theorem refreshFold_noFetch (fetchM : String → Month → Month → List (Month × Rat))
    (lcm : Month) (needed : List Month) :
    ∀ (symbols : List String) (acc : List (String × SymbolCache) × Nat),
      (∀ symbol ∈ symbols, ∀ p ∈ needed, (getKey? ((getKey? acc.1 symbol).getD []) p).isSome) →
      (symbols.foldl (refreshStep fetchM lcm needed) acc).2 = acc.2 := by
  intro symbols
  induction symbols with
  | nil => intro acc h; rfl
  | cons s rest ih =>
    intro acc h
    rw [List.foldl_cons]
    have hstep : refreshStep fetchM lcm needed acc s
        = (setKey acc.1 s ((getKey? acc.1 s).getD []), acc.2) := by
      simp [refreshStep,
        symRefresh_noFetch fetchM lcm needed s ((getKey? acc.1 s).getD [])
          (h s (List.mem_cons_self _ _))]
    rw [hstep]
    apply ih
    intro symbol hmem p hp
    rw [getKey?_setKey]
    by_cases hs : s = symbol
    · rw [if_pos hs]
      subst hs
      exact h s (List.mem_cons_self _ _) p hp
    · rw [if_neg hs]
      exact h symbol (List.mem_cons.2 (Or.inr hmem)) p hp

/-- C5 (amended): when the provider returns a value for every month of any
fetched range, a second `ensure_benchmark_cache` call with the same symbols,
months and day performs zero provider fetches — after the first call every
requested month at or below the watermark is cached, so nothing is missing. -/
theorem claim_C5_idempotent (fetchM : String → Month → Month → List (Month × Rat))
    (today : Date) (symbols : List String) (months : List Month) (cache : Cache)
    (hc : ∀ (symbol : String) (a b p : Nat), a ≤ p → p ≤ b → ∃ v, (p, v) ∈ fetchM symbol a b) :
    (ensureBenchmarkCache fetchM today symbols months
      (ensureBenchmarkCache fetchM today symbols months cache).1).2.1 = 0 := by
  by_cases hne : (months.filter (fun q => decide (q ≤ lastCompleteMonth today))).isEmpty
  · simp [ensureBenchmarkCache, hne]
  · have hNeed : ∀ q ∈ months.filter (fun q => decide (q ≤ lastCompleteMonth today)),
        q ≤ lastCompleteMonth today := by
      intro q hq
      exact of_decide_eq_true (List.mem_filter.1 hq).2
    have h1 : (ensureBenchmarkCache fetchM today symbols months cache).1.monthly
        = (symbols.foldl (refreshStep fetchM (lastCompleteMonth today)
            (months.filter (fun q => decide (q ≤ lastCompleteMonth today))))
            (cache.monthly, 0)).1 := by
      simp [ensureBenchmarkCache, hne]
    have h2 : (ensureBenchmarkCache fetchM today symbols months
          (ensureBenchmarkCache fetchM today symbols months cache).1).2.1
        = (symbols.foldl (refreshStep fetchM (lastCompleteMonth today)
            (months.filter (fun q => decide (q ≤ lastCompleteMonth today))))
            ((ensureBenchmarkCache fetchM today symbols months cache).1.monthly, 0)).2 := by
      simp [ensureBenchmarkCache, hne]
    rw [h2]
    apply refreshFold_noFetch
    intro symbol hs p hp
    rw [show ((((ensureBenchmarkCache fetchM today symbols months cache).1.monthly, 0) :
        List (String × SymbolCache) × Nat)).1
        = (ensureBenchmarkCache fetchM today symbols months cache).1.monthly from rfl, h1]
    exact refreshFold_complete fetchM _ _ hc hNeed symbols _ symbol hs p hp

/-- C5 is false as stated: with a provider that keeps returning no data, the
first call's fetch yields nothing, the month stays missing, and the second
identical call fetches again (1 provider fetch, not 0). -/
theorem claim_C5_counterexample :
    ¬((ensureBenchmarkCache (fun _ _ _ => []) ⟨2024, 4, 12⟩ ["SPY"] [24290]
        (ensureBenchmarkCache (fun _ _ _ => []) ⟨2024, 4, 12⟩ ["SPY"] [24290]
          ⟨[], [], none⟩).1).2.1 = 0) := by
  decide

theorem claim_C5_idempotent_witness :
    (ensureBenchmarkCache
      (fun _ a b => (List.range (b + 1 - a)).map (fun i => (a + i, (0 : Rat))))
      ⟨2024, 4, 12⟩ ["SPY"] [24289, 24290]
      (ensureBenchmarkCache
        (fun _ a b => (List.range (b + 1 - a)).map (fun i => (a + i, (0 : Rat))))
        ⟨2024, 4, 12⟩ ["SPY"] [24289, 24290] ⟨[], [], none⟩).1).2.1 = 0 :=
  claim_C5_idempotent
    (fun _ a b => (List.range (b + 1 - a)).map (fun i => (a + i, (0 : Rat))))
    ⟨2024, 4, 12⟩ ["SPY"] [24289, 24290] ⟨[], [], none⟩ (by
    intro symbol a b p hap hpb
    refine ⟨0, ?_⟩
    simp only [List.mem_map, List.mem_range]
    have hlt : p - a < b + 1 - a := by omega
    have h : a + (p - a) = p := by omega
    exact ⟨p - a, hlt, by rw [h]⟩)

theorem alignSymStep_eq (histD : DOracle) (symbol : String) (inceptionDate currentEnd : Date)
    (sa : AlignedCache) :
    alignSymStep histD symbol inceptionDate currentEnd sa
      = ((curStep histD symbol currentEnd (incStep histD symbol inceptionDate sa).1).1,
         (incStep histD symbol inceptionDate sa).2,
         (curStep histD symbol currentEnd (incStep histD symbol inceptionDate sa).1).2) := rfl

theorem incStep_getKey_other (histD : DOracle) (symbol : String) (inceptionDate : Date)
    (sa : AlignedCache) (k : Month) (hk : k ≠ inceptionDate.monthIdx) :
    getKey? (incStep histD symbol inceptionDate sa).1 k = getKey? sa k := by
  unfold incStep
  split
  · split
    · rw [getKey?_setKey, if_neg (fun h => hk h.symm)]
    · rfl
  · rfl

theorem curStep_getKey_other (histD : DOracle) (symbol : String) (currentEnd : Date)
    (sa : AlignedCache) (k : Month) (hk : k ≠ currentEnd.monthIdx) :
    getKey? (curStep histD symbol currentEnd sa).1 k = getKey? sa k := by
  unfold curStep
  split
  · split
    · rw [getKey?_setKey, if_neg (fun h => hk h.symm)]
    · rfl
  · rfl

theorem incStep_skip (histD : DOracle) (symbol : String) (inceptionDate : Date)
    (sa : AlignedCache) (h : (getKey? sa inceptionDate.monthIdx).isSome) :
    incStep histD symbol inceptionDate sa = (sa, false) := by
  unfold incStep
  rw [if_neg]
  rw [Option.isNone_iff_eq_none]
  intro h2
  rw [h2] at h
  simp at h

theorem curStep_fresh (histD : DOracle) (symbol : String) (currentEnd : Date)
    (sa : AlignedCache) (e : AlignedEntry)
    (h1 : getKey? sa currentEnd.monthIdx = some e) (h2 : e.endD = currentEnd) :
    curStep histD symbol currentEnd sa = (sa, false) := by
  unfold curStep
  rw [h1]
  simp [h2]

theorem curStep_update_flag (histD : DOracle) (symbol : String) (currentEnd : Date)
    (sa : AlignedCache)
    (h : (match getKey? sa currentEnd.monthIdx with
      | none => true
      | some e => decide (e.endD ≠ currentEnd)) = true) :
    (curStep histD symbol currentEnd sa).2 = true := by
  unfold curStep
  rw [if_pos h]
  split <;> rfl

theorem curStep_update_some (histD : DOracle) (symbol : String) (currentEnd : Date)
    (sa : AlignedCache) (r : Rat)
    (h : (match getKey? sa currentEnd.monthIdx with
      | none => true
      | some e => decide (e.endD ≠ currentEnd)) = true)
    (hf : fetchPartialReturn histD symbol (firstOfMonthDate currentEnd.monthIdx) currentEnd
      = some r) :
    curStep histD symbol currentEnd sa
      = (setKey sa currentEnd.monthIdx
          ⟨firstOfMonthDate currentEnd.monthIdx, currentEnd, r, currentEnd⟩, true) := by
  unfold curStep
  rw [if_pos h, hf]

theorem curStep_flag_some (histD : DOracle) (symbol : String) (currentEnd : Date)
    (sa : AlignedCache) (r : Rat)
    (hflag : (curStep histD symbol currentEnd sa).2 = true)
    (hf : fetchPartialReturn histD symbol (firstOfMonthDate currentEnd.monthIdx) currentEnd
      = some r) :
    getKey? (curStep histD symbol currentEnd sa).1 currentEnd.monthIdx
      = some ⟨firstOfMonthDate currentEnd.monthIdx, currentEnd, r, currentEnd⟩ := by
  by_cases h : (match getKey? sa currentEnd.monthIdx with
      | none => true
      | some e => decide (e.endD ≠ currentEnd)) = true
  · rw [curStep_update_some histD symbol currentEnd sa r h hf, getKey?_setKey, if_pos rfl]
  · exfalso
    have hskip : curStep histD symbol currentEnd sa = (sa, false) := by
      unfold curStep
      rw [if_neg h]
    rw [hskip] at hflag
    simp at hflag

theorem incStep_nodup (histD : DOracle) (symbol : String) (inceptionDate : Date)
    (sa : AlignedCache) (h : (sa.map Prod.fst).Nodup) :
    (((incStep histD symbol inceptionDate sa).1).map Prod.fst).Nodup := by
  unfold incStep
  split
  · split
    · exact nodup_map_fst_setKey _ _ _ h
    · exact h
  · exact h

theorem curStep_nodup (histD : DOracle) (symbol : String) (currentEnd : Date)
    (sa : AlignedCache) (h : (sa.map Prod.fst).Nodup) :
    (((curStep histD symbol currentEnd sa).1).map Prod.fst).Nodup := by
  unfold curStep
  split
  · split
    · exact nodup_map_fst_setKey _ _ _ h
    · exact h
  · exact h

theorem alignSymStep_fst (histD : DOracle) (symbol : String) (inceptionDate currentEnd : Date)
    (sa : AlignedCache) :
    (alignSymStep histD symbol inceptionDate currentEnd sa).1
      = (curStep histD symbol currentEnd (incStep histD symbol inceptionDate sa).1).1 := rfl

theorem alignSymStep_cur_flag (histD : DOracle) (symbol : String)
    (inceptionDate currentEnd : Date) (sa : AlignedCache) :
    (alignSymStep histD symbol inceptionDate currentEnd sa).2.2
      = (curStep histD symbol currentEnd (incStep histD symbol inceptionDate sa).1).2 := rfl

theorem incStep_preserves_entry (histD : DOracle) (symbol : String) (inceptionDate : Date)
    (sa : AlignedCache) (k : Month) (e : AlignedEntry) (h : getKey? sa k = some e) :
    getKey? (incStep histD symbol inceptionDate sa).1 k = some e := by
  by_cases hk : k = inceptionDate.monthIdx
  · subst hk
    rw [incStep_skip histD symbol inceptionDate sa (by rw [h]; rfl)]
    exact h
  · rw [incStep_getKey_other _ _ _ _ _ hk]
    exact h

theorem ensureAligned_single (histD : DOracle) (symbol : String)
    (inceptionDate currentEnd : Date) (now : String) (cache : Cache) :
    (ensureAlignedEntries histD [symbol] inceptionDate currentEnd now cache).2.1
      = [(symbol,
          (alignSymStep histD symbol inceptionDate currentEnd (alignedOf cache symbol)).2.1,
          (alignSymStep histD symbol inceptionDate currentEnd (alignedOf cache symbol)).2.2)] ∧
    alignedOf (ensureAlignedEntries histD [symbol] inceptionDate currentEnd now cache).1 symbol
      = (alignSymStep histD symbol inceptionDate currentEnd (alignedOf cache symbol)).1 := by
  constructor
  · rfl
  · simp only [ensureAlignedEntries, alignFoldStep, alignedOf, List.foldl_cons, List.foldl_nil]
    rw [getKey?_setKey, if_pos rfl]
    rfl

/-- C2 (amended): staleness of the current-month record — a record whose
stored `end` equals the requested `current_end` is never refetched and is
preserved; a record whose stored `end` differs triggers a daily refetch, as
does an absent record when the inception month is a different month; the
refetched record, with `end = current_end`, is persisted when the daily fetch
returns a value (on provider failure the stale record is left in place). -/
theorem claim_C2_staleness (histD : DOracle) (symbol : String)
    (inceptionDate currentEnd : Date) (now : String) (cache : Cache) :
    (∀ e, getKey? (alignedOf cache symbol) currentEnd.monthIdx = some e →
      e.endD = currentEnd →
      ((ensureAlignedEntries histD [symbol] inceptionDate currentEnd now cache).2.1.map
          (fun t => t.2.2)) = [false] ∧
      getKey? (alignedOf
          (ensureAlignedEntries histD [symbol] inceptionDate currentEnd now cache).1 symbol)
          currentEnd.monthIdx = some e) ∧
    (∀ e, getKey? (alignedOf cache symbol) currentEnd.monthIdx = some e →
      e.endD ≠ currentEnd →
      ((ensureAlignedEntries histD [symbol] inceptionDate currentEnd now cache).2.1.map
          (fun t => t.2.2)) = [true]) ∧
    (getKey? (alignedOf cache symbol) currentEnd.monthIdx = none →
      inceptionDate.monthIdx ≠ currentEnd.monthIdx →
      ((ensureAlignedEntries histD [symbol] inceptionDate currentEnd now cache).2.1.map
          (fun t => t.2.2)) = [true]) ∧
    (∀ r, fetchPartialReturn histD symbol (firstOfMonthDate currentEnd.monthIdx) currentEnd
        = some r →
      ((getKey? (alignedOf cache symbol) currentEnd.monthIdx = none ∧
          inceptionDate.monthIdx ≠ currentEnd.monthIdx) ∨
        (∃ e, getKey? (alignedOf cache symbol) currentEnd.monthIdx = some e ∧
          e.endD ≠ currentEnd)) →
      getKey? (alignedOf
          (ensureAlignedEntries histD [symbol] inceptionDate currentEnd now cache).1 symbol)
          currentEnd.monthIdx
        = some ⟨firstOfMonthDate currentEnd.monthIdx, currentEnd, r, currentEnd⟩) := by
  obtain ⟨hlog, hmap⟩ := ensureAligned_single histD symbol inceptionDate currentEnd now cache
  refine ⟨?_, ?_, ?_, ?_⟩
  · intro e he hend
    have hs1 : getKey? (incStep histD symbol inceptionDate (alignedOf cache symbol)).1
        currentEnd.monthIdx = some e := incStep_preserves_entry _ _ _ _ _ _ he
    have hcur := curStep_fresh histD symbol currentEnd
      (incStep histD symbol inceptionDate (alignedOf cache symbol)).1 e hs1 hend
    constructor
    · rw [hlog]
      simp [alignSymStep_cur_flag, hcur]
    · rw [hmap, alignSymStep_fst, hcur]
      exact hs1
  · intro e he hend
    have hs1 : getKey? (incStep histD symbol inceptionDate (alignedOf cache symbol)).1
        currentEnd.monthIdx = some e := incStep_preserves_entry _ _ _ _ _ _ he
    have hflag := curStep_update_flag histD symbol currentEnd
      (incStep histD symbol inceptionDate (alignedOf cache symbol)).1
      (by rw [hs1]; simp [hend])
    rw [hlog]
    simp [alignSymStep_cur_flag, hflag]
  · intro hnone hne
    have hs1 : getKey? (incStep histD symbol inceptionDate (alignedOf cache symbol)).1
        currentEnd.monthIdx = none := by
      rw [incStep_getKey_other _ _ _ _ _ (fun h => hne h.symm)]
      exact hnone
    have hflag := curStep_update_flag histD symbol currentEnd
      (incStep histD symbol inceptionDate (alignedOf cache symbol)).1 (by rw [hs1])
    rw [hlog]
    simp [alignSymStep_cur_flag, hflag]
  · intro r hf hcase
    have hupd : (match getKey? (incStep histD symbol inceptionDate (alignedOf cache symbol)).1
        currentEnd.monthIdx with
      | none => true
      | some e => decide (e.endD ≠ currentEnd)) = true := by
      rcases hcase with ⟨hnone, hne⟩ | ⟨e, he, hend⟩
      · rw [incStep_getKey_other _ _ _ _ _ (fun h => hne h.symm), hnone]
      · rw [incStep_preserves_entry _ _ _ _ _ e he]
        simp [hend]
    rw [hmap, alignSymStep_fst,
      curStep_update_some histD symbol currentEnd _ r hupd hf, getKey?_setKey, if_pos rfl]

/-- C2 is false as stated: with a stale current-month record
(`end = 2024-03-15`) and a failing provider, requesting
`current_end = 2024-03-20` triggers the refetch but persists nothing — the
stored record keeps its old `end`, while the claim promises a new record
whose `end` equals the requested date. -/
theorem claim_C2_counterexample :
    getKey? (alignedOf (ensureAlignedEntries (fun _ _ _ => Except.error ()) ["SPY"]
        ⟨2024, 2, 10⟩ ⟨2024, 3, 20⟩ "now"
        ⟨[], [("SPY", [(24290,
          ⟨⟨2024, 3, 1⟩, ⟨2024, 3, 15⟩, 3, ⟨2024, 3, 15⟩⟩)])], none⟩).1 "SPY") 24290
      = some ⟨⟨2024, 3, 1⟩, ⟨2024, 3, 15⟩, 3, ⟨2024, 3, 15⟩⟩ ∧
    (⟨⟨2024, 3, 1⟩, ⟨2024, 3, 15⟩, (3 : Rat), ⟨2024, 3, 15⟩⟩ : AlignedEntry).endD
      ≠ (⟨2024, 3, 20⟩ : Date) := by
  decide

theorem claim_C2_staleness_witness :
    ((ensureAlignedEntries (fun _ _ _ => Except.error ()) ["SPY"] ⟨2024, 2, 10⟩ ⟨2024, 3, 20⟩
        "now" ⟨[], [("SPY", [(24290,
          ⟨⟨2024, 3, 1⟩, ⟨2024, 3, 20⟩, 3, ⟨2024, 3, 20⟩⟩)])], none⟩).2.1.map
        (fun t => t.2.2)) = [false] ∧
    getKey? (alignedOf (ensureAlignedEntries
        (fun _ s e => Except.ok ⟨[(s, 1), (e, 2)], none⟩) ["SPY"] ⟨2024, 2, 10⟩ ⟨2024, 3, 20⟩
        "now" ⟨[], [], none⟩).1 "SPY") 24290
      = some ⟨⟨2024, 3, 1⟩, ⟨2024, 3, 20⟩, (2 : Rat) / 1 - 1, ⟨2024, 3, 20⟩⟩ :=
  ⟨((claim_C2_staleness (fun _ _ _ => Except.error ()) "SPY" ⟨2024, 2, 10⟩ ⟨2024, 3, 20⟩ "now"
      ⟨[], [("SPY", [(24290, ⟨⟨2024, 3, 1⟩, ⟨2024, 3, 20⟩, 3, ⟨2024, 3, 20⟩⟩)])],
        none⟩).1
      ⟨⟨2024, 3, 1⟩, ⟨2024, 3, 20⟩, 3, ⟨2024, 3, 20⟩⟩ (by decide) (by decide)).1,
   (claim_C2_staleness (fun _ s e => Except.ok ⟨[(s, 1), (e, 2)], none⟩) "SPY" ⟨2024, 2, 10⟩
      ⟨2024, 3, 20⟩ "now" ⟨[], [], none⟩).2.2.2 ((2 : Rat) / 1 - 1) (by rfl)
      (Or.inl ⟨by decide, by decide⟩)⟩

/-- C10: when the inception date and the current end fall in the same
calendar month, the loop body of `ensure_aligned_partials` only ever touches
the single record keyed by that month (keeping the per-symbol keys
duplicate-free), and when the current-month daily fetch is performed and
succeeds, the stored record's `start` is the first day of the month — the
current partial overwrites the inception partial. -/
theorem claim_C10_boundary_collision (histD : DOracle) (symbol : String)
    (inceptionDate currentEnd : Date) (sa0 : AlignedCache)
    (hm : inceptionDate.monthIdx = currentEnd.monthIdx) :
    (∀ k, getKey? (alignSymStep histD symbol inceptionDate currentEnd sa0).1 k
        ≠ getKey? sa0 k → k = currentEnd.monthIdx) ∧
    ((sa0.map Prod.fst).Nodup →
      (((alignSymStep histD symbol inceptionDate currentEnd sa0).1).map Prod.fst).Nodup) ∧
    ((alignSymStep histD symbol inceptionDate currentEnd sa0).2.2 = true →
      ∀ r, fetchPartialReturn histD symbol (firstOfMonthDate currentEnd.monthIdx) currentEnd
          = some r →
      getKey? (alignSymStep histD symbol inceptionDate currentEnd sa0).1 currentEnd.monthIdx
        = some ⟨firstOfMonthDate currentEnd.monthIdx, currentEnd, r, currentEnd⟩) := by
  refine ⟨?_, ?_, ?_⟩
  · intro k hk
    by_contra hkc
    apply hk
    rw [alignSymStep_fst, curStep_getKey_other _ _ _ _ _ hkc,
      incStep_getKey_other _ _ _ _ _ (show k ≠ inceptionDate.monthIdx by rw [hm]; exact hkc)]
  · intro hnd
    rw [alignSymStep_fst]
    exact curStep_nodup _ _ _ _ (incStep_nodup _ _ _ _ hnd)
  · intro hflag r hf
    rw [alignSymStep_fst]
    exact curStep_flag_some _ _ _ _ r (by rw [← alignSymStep_cur_flag]; exact hflag) hf

theorem claim_C10_boundary_collision_witness :
    getKey? (alignSymStep (fun _ s e => Except.ok ⟨[(s, 1), (e, 2)], none⟩) "SPY"
        ⟨2024, 3, 5⟩ ⟨2024, 3, 20⟩ []).1 (Date.monthIdx ⟨2024, 3, 20⟩)
      = some ⟨firstOfMonthDate (Date.monthIdx ⟨2024, 3, 20⟩), ⟨2024, 3, 20⟩,
          (2 : Rat) / 1 - 1, ⟨2024, 3, 20⟩⟩ :=
  (claim_C10_boundary_collision (fun _ s e => Except.ok ⟨[(s, 1), (e, 2)], none⟩) "SPY"
    ⟨2024, 3, 5⟩ ⟨2024, 3, 20⟩ [] (by decide)).2.2 (by decide) ((2 : Rat) / 1 - 1) (by rfl)

theorem ensureBenchmarkCache_aligned (fetchM : String → Month → Month → List (Month × Rat))
    (today : Date) (symbols : List String) (months : List Month) (cache : Cache) :
    (ensureBenchmarkCache fetchM today symbols months cache).1.aligned = cache.aligned := by
  simp only [ensureBenchmarkCache]
  split <;> rfl

theorem getAligned_fst (fetchM : String → Month → Month → List (Month × Rat)) (histD : DOracle)
    (today : Date) (now : String) (symbol : String) (months : List Month)
    (inceptionDate currentEnd : Date) (cache : Cache) :
    (getAlignedBenchmarkSeries fetchM histD today now symbol months inceptionDate currentEnd
        cache).1
      = buildSeries (getAlignedBenchmarkSeries fetchM histD today now symbol months
          inceptionDate currentEnd cache).2 symbol months := rfl

theorem getAligned_snd (fetchM : String → Month → Month → List (Month × Rat)) (histD : DOracle)
    (today : Date) (now : String) (symbol : String) (months : List Month)
    (inceptionDate currentEnd : Date) (cache : Cache) :
    (getAlignedBenchmarkSeries fetchM histD today now symbol months inceptionDate currentEnd
        cache).2
      = (ensureAlignedEntries histD [symbol] inceptionDate currentEnd now
          (ensureBenchmarkCache fetchM today [symbol] months cache).1).1 := rfl

theorem buildSeries_eq (c : Cache) (symbol : String) (months : List Month) :
    buildSeries c symbol months
      = List.insertionSort keyLe (months.filterMap
          (fun p => (seriesVal (alignedOf c symbol) (monthlyOf c symbol) p).map
            (fun v => (p, v)))) := rfl

theorem mem_buildSeries (c : Cache) (symbol : String) (months : List Month) (p : Month)
    (w : Rat) :
    (p, w) ∈ buildSeries c symbol months ↔
      p ∈ months ∧ seriesVal (alignedOf c symbol) (monthlyOf c symbol) p = some w := by
  rw [buildSeries_eq]
  rw [List.Perm.mem_iff (List.perm_insertionSort keyLe _), List.mem_filterMap]
  constructor
  · rintro ⟨a, ha, hfa⟩
    rcases Option.map_eq_some'.1 hfa with ⟨v, hv, hEq⟩
    rw [Prod.mk.injEq] at hEq
    obtain ⟨rfl, rfl⟩ := hEq
    exact ⟨ha, hv⟩
  · rintro ⟨hp, hv⟩
    refine ⟨p, hp, ?_⟩
    rw [hv]
    rfl

theorem keys_filterMap_sublist (alignedMap : AlignedCache) (monthlyMap : SymbolCache) :
    ∀ (months : List Month),
      List.Sublist ((months.filterMap (fun p => (seriesVal alignedMap monthlyMap p).map
          (fun v => (p, v)))).map Prod.fst) months := by
  intro months
  induction months with
  | nil => simp
  | cons p rest ih =>
    cases h : (seriesVal alignedMap monthlyMap p).map (fun v => (p, v)) with
    | none =>
      simp only [List.filterMap_cons, h]
      exact List.Sublist.cons p ih
    | some pv =>
      have hp : pv.1 = p := by
        rcases Option.map_eq_some'.1 h with ⟨v, hv, hEq⟩
        rw [← hEq]
      simp only [List.filterMap_cons, h, List.map_cons]
      rw [hp]
      exact List.Sublist.cons₂ p ih

theorem alignSymStep_none (histD : DOracle) (symbol : String) (inceptionDate currentEnd : Date)
    (sa0 : AlignedCache) (p : Month)
    (h0 : getKey? sa0 p = none)
    (h1 : p = inceptionDate.monthIdx →
      fetchPartialReturn histD symbol inceptionDate (endOfMonthDate inceptionDate.monthIdx)
        = none)
    (h2 : p = currentEnd.monthIdx →
      fetchPartialReturn histD symbol (firstOfMonthDate currentEnd.monthIdx) currentEnd
        = none) :
    getKey? (alignSymStep histD symbol inceptionDate currentEnd sa0).1 p = none := by
  rw [alignSymStep_fst]
  have hi : getKey? (incStep histD symbol inceptionDate sa0).1 p = none := by
    by_cases hk : p = inceptionDate.monthIdx
    · subst hk
      have hstep : incStep histD symbol inceptionDate sa0 = (sa0, true) := by
        simp [incStep, h0, h1 rfl]
      rw [hstep]
      exact h0
    · rw [incStep_getKey_other _ _ _ _ _ hk]
      exact h0
  by_cases hk : p = currentEnd.monthIdx
  · subst hk
    have hstep : curStep histD symbol currentEnd (incStep histD symbol inceptionDate sa0).1
        = ((incStep histD symbol inceptionDate sa0).1, true) := by
      simp [curStep, hi, h2 rfl]
    rw [hstep]
    exact hi
  · rw [curStep_getKey_other _ _ _ _ _ hk]
    exact hi

/-- C4 (amended): partial-fetch-failure fallback — when the daily fetch for a
month's boundary partial fails and the aligned cache holds no prior record
for that month, the series of `get_aligned_benchmark_series` gives that month
the cached full-month value when one exists and omits the month otherwise
(never interpolated or zero-filled).  (When a prior aligned record exists,
that stale partial is used instead of the full-month value.) -/
theorem claim_C4_fallback (fetchM : String → Month → Month → List (Month × Rat))
    (histD : DOracle) (today : Date) (now : String) (symbol : String) (months : List Month)
    (inceptionDate currentEnd : Date) (cache : Cache) (p : Month)
    (h0 : getKey? (alignedOf cache symbol) p = none)
    (h1 : p = inceptionDate.monthIdx →
      fetchPartialReturn histD symbol inceptionDate (endOfMonthDate inceptionDate.monthIdx)
        = none)
    (h2 : p = currentEnd.monthIdx →
      fetchPartialReturn histD symbol (firstOfMonthDate currentEnd.monthIdx) currentEnd
        = none) :
    (∀ v, getKey? (monthlyOf (getAlignedBenchmarkSeries fetchM histD today now symbol months
          inceptionDate currentEnd cache).2 symbol) p = some v →
      (((p, v) ∈ (getAlignedBenchmarkSeries fetchM histD today now symbol months inceptionDate
          currentEnd cache).1) ↔ p ∈ months) ∧
      (∀ w, (p, w) ∈ (getAlignedBenchmarkSeries fetchM histD today now symbol months
          inceptionDate currentEnd cache).1 → w = v)) ∧
    (getKey? (monthlyOf (getAlignedBenchmarkSeries fetchM histD today now symbol months
          inceptionDate currentEnd cache).2 symbol) p = none →
      ∀ w, (p, w) ∉ (getAlignedBenchmarkSeries fetchM histD today now symbol months
          inceptionDate currentEnd cache).1) := by
  have haligned : getKey? (alignedOf (getAlignedBenchmarkSeries fetchM histD today now symbol
      months inceptionDate currentEnd cache).2 symbol) p = none := by
    rw [getAligned_snd,
      (ensureAligned_single histD symbol inceptionDate currentEnd now _).2]
    apply alignSymStep_none histD symbol inceptionDate currentEnd _ p _ h1 h2
    have hal : alignedOf (ensureBenchmarkCache fetchM today [symbol] months cache).1 symbol
        = alignedOf cache symbol := by
      simp only [alignedOf, ensureBenchmarkCache_aligned]
    rw [hal]
    exact h0
  have hsv : seriesVal (alignedOf (getAlignedBenchmarkSeries fetchM histD today now symbol
        months inceptionDate currentEnd cache).2 symbol)
      (monthlyOf (getAlignedBenchmarkSeries fetchM histD today now symbol months inceptionDate
        currentEnd cache).2 symbol) p
      = getKey? (monthlyOf (getAlignedBenchmarkSeries fetchM histD today now symbol months
          inceptionDate currentEnd cache).2 symbol) p := by
    simp [seriesVal, haligned]
  constructor
  · intro v hv
    constructor
    · rw [getAligned_fst, mem_buildSeries, hsv, hv]
      simp
    · intro w hw
      rw [getAligned_fst, mem_buildSeries, hsv, hv] at hw
      exact (Option.some_inj.1 hw.2).symm
  · intro hnone w hw
    rw [getAligned_fst, mem_buildSeries, hsv, hnone] at hw
    exact Option.noConfusion hw.2

/-- C4 is false as stated: with a stale aligned record for March
(`end = 2024-03-15`, value 5), a cached full-month value 3 for March, and a
provider whose daily fetch fails, the output for March is the stale partial
5, not the cached full-month value 3 the claim promises. -/
theorem claim_C4_counterexample :
    getKey? (monthlyOf (getAlignedBenchmarkSeries (fun _ _ _ => [])
        (fun _ _ _ => Except.error ()) ⟨2024, 3, 20⟩ "now" "SPY" [24290] ⟨2024, 2, 10⟩
        ⟨2024, 3, 20⟩ ⟨[("SPY", [(24290, 3)])],
          [("SPY", [(24290, ⟨⟨2024, 3, 1⟩, ⟨2024, 3, 15⟩, 5, ⟨2024, 3, 15⟩⟩)])], none⟩).2
        "SPY") 24290 = some 3 ∧
    (getAlignedBenchmarkSeries (fun _ _ _ => []) (fun _ _ _ => Except.error ()) ⟨2024, 3, 20⟩
        "now" "SPY" [24290] ⟨2024, 2, 10⟩ ⟨2024, 3, 20⟩ ⟨[("SPY", [(24290, 3)])],
          [("SPY", [(24290, ⟨⟨2024, 3, 1⟩, ⟨2024, 3, 15⟩, 5, ⟨2024, 3, 15⟩⟩)])], none⟩).1
      = [(24290, 5)] ∧
    (5 : Rat) ≠ 3 := by
  decide

theorem claim_C4_fallback_witness :
    (24290, (3 : Rat)) ∈ (getAlignedBenchmarkSeries (fun _ _ _ => [])
        (fun _ _ _ => Except.error ()) ⟨2024, 3, 20⟩ "now" "SPY" [24290] ⟨2024, 2, 10⟩
        ⟨2024, 3, 20⟩ ⟨[("SPY", [(24290, 3)])], [], none⟩).1 :=
  ((claim_C4_fallback (fun _ _ _ => []) (fun _ _ _ => Except.error ()) ⟨2024, 3, 20⟩ "now"
      "SPY" [24290] ⟨2024, 2, 10⟩ ⟨2024, 3, 20⟩ ⟨[("SPY", [(24290, 3)])], [], none⟩ 24290
      (by decide) (fun _ => rfl) (fun _ => rfl)).1 3 (by decide)).1.mpr (by decide)

/-- C6 (amended): the series returned by `get_aligned_benchmark_series` is
sorted ascending by calendar month, and it has no duplicate months provided
the requested month list itself has none (a requested list with a repeated
month yields that month twice). -/
theorem claim_C6_sorted_nodup (fetchM : String → Month → Month → List (Month × Rat))
    (histD : DOracle) (today : Date) (now : String) (symbol : String) (months : List Month)
    (inceptionDate currentEnd : Date) (cache : Cache) :
    List.Sorted keyLe (getAlignedBenchmarkSeries fetchM histD today now symbol months
        inceptionDate currentEnd cache).1 ∧
    (months.Nodup →
      (((getAlignedBenchmarkSeries fetchM histD today now symbol months inceptionDate
          currentEnd cache).1).map Prod.fst).Nodup) := by
  constructor
  · rw [getAligned_fst, buildSeries_eq]
    exact List.sorted_insertionSort _ _
  · intro hnd
    rw [getAligned_fst, buildSeries_eq]
    rw [List.Perm.nodup_iff ((List.perm_insertionSort keyLe _).map Prod.fst)]
    exact List.Nodup.sublist (keys_filterMap_sublist _ _ months) hnd

/-- C6 is false as stated: requesting the duplicated month list
`[2024-04, 2024-04]` with a cached value for April yields a series whose
month index `[2024-04, 2024-04]` contains a duplicate month. -/
theorem claim_C6_counterexample :
    ¬ ((((getAlignedBenchmarkSeries (fun _ _ _ => []) (fun _ _ _ => Except.error ())
        ⟨2024, 4, 12⟩ "now" "SPY" [24291, 24291] ⟨2024, 2, 10⟩ ⟨2024, 4, 12⟩
        ⟨[("SPY", [(24291, 3)])], [], none⟩).1).map Prod.fst).Nodup) := by
  decide

theorem claim_C6_sorted_nodup_witness :
    (((getAlignedBenchmarkSeries (fun _ _ _ => []) (fun _ _ _ => Except.error ())
        ⟨2024, 4, 12⟩ "now" "SPY" [24290, 24291] ⟨2024, 2, 10⟩ ⟨2024, 4, 12⟩
        ⟨[("SPY", [(24290, 3), (24291, 4)])], [], none⟩).1).map Prod.fst).Nodup :=
  (claim_C6_sorted_nodup (fun _ _ _ => []) (fun _ _ _ => Except.error ()) ⟨2024, 4, 12⟩ "now"
    "SPY" [24290, 24291] ⟨2024, 2, 10⟩ ⟨2024, 4, 12⟩
    ⟨[("SPY", [(24290, 3), (24291, 4)])], [], none⟩).2 (by decide)

/-- C7: partial-over-full precedence — whenever a requested month has a
record in the aligned section and a value in the full-month section of the
document the merge reads, every series row for that month carries the
aligned (partial) value, not the full-month value. -/
theorem claim_C7_aligned_precedence (fetchM : String → Month → Month → List (Month × Rat))
    (histD : DOracle) (today : Date) (now : String) (symbol : String) (months : List Month)
    (inceptionDate currentEnd : Date) (cache : Cache) (p : Month) (e : AlignedEntry) (v : Rat)
    (hm : p ∈ months)
    (ha : getKey? (alignedOf (getAlignedBenchmarkSeries fetchM histD today now symbol months
        inceptionDate currentEnd cache).2 symbol) p = some e)
    (hf : getKey? (monthlyOf (getAlignedBenchmarkSeries fetchM histD today now symbol months
        inceptionDate currentEnd cache).2 symbol) p = some v) :
    ((p, e.ret) ∈ (getAlignedBenchmarkSeries fetchM histD today now symbol months inceptionDate
        currentEnd cache).1) ∧
    (∀ w, (p, w) ∈ (getAlignedBenchmarkSeries fetchM histD today now symbol months inceptionDate
        currentEnd cache).1 → w = e.ret) := by
  have hsv : seriesVal (alignedOf (getAlignedBenchmarkSeries fetchM histD today now symbol
        months inceptionDate currentEnd cache).2 symbol)
      (monthlyOf (getAlignedBenchmarkSeries fetchM histD today now symbol months inceptionDate
        currentEnd cache).2 symbol) p = some e.ret := by
    simp [seriesVal, ha]
  constructor
  · rw [getAligned_fst, mem_buildSeries]
    exact ⟨hm, hsv⟩
  · intro w hw
    rw [getAligned_fst, mem_buildSeries, hsv] at hw
    exact (Option.some_inj.1 hw.2).symm

theorem claim_C7_aligned_precedence_witness :
    (24291, (5 : Rat)) ∈ (getAlignedBenchmarkSeries (fun _ _ _ => [])
        (fun _ _ _ => Except.error ()) ⟨2024, 4, 12⟩ "now" "SPY" [24291] ⟨2024, 2, 10⟩
        ⟨2024, 4, 12⟩ ⟨[("SPY", [(24291, 3)])],
          [("SPY", [(24291, ⟨⟨2024, 4, 1⟩, ⟨2024, 4, 12⟩, 5, ⟨2024, 4, 12⟩⟩)])], none⟩).1 :=
  (claim_C7_aligned_precedence (fun _ _ _ => []) (fun _ _ _ => Except.error ()) ⟨2024, 4, 12⟩
    "now" "SPY" [24291] ⟨2024, 2, 10⟩ ⟨2024, 4, 12⟩ ⟨[("SPY", [(24291, 3)])],
      [("SPY", [(24291, ⟨⟨2024, 4, 1⟩, ⟨2024, 4, 12⟩, 5, ⟨2024, 4, 12⟩⟩)])], none⟩ 24291
    ⟨⟨2024, 4, 1⟩, ⟨2024, 4, 12⟩, 5, ⟨2024, 4, 12⟩⟩ 3 (by decide) (by decide) (by decide)).1
